import Mathlib

/-!
Shallow embedding of the PyNote search core (`src/pynote/utils.py`):
`detect_encoding` and `full_text_search`, together with the proofs of the
specification's claims about them.

Python strings are embedded as `List Char`.  The external file system and
the `re` regex module are embedded as explicit data / function parameters:

* A file's interaction with `detect_encoding` is a `FileState` recording
  which of the three observable outcomes of the two `open`/`read` attempts
  occurs (the first `open` raising a non-decode error, the content being
  valid UTF-8, the latin-1 attempt raising).
* A file seen by the walker (`root.rglob` / `root.glob`) is a `FileEntry`
  carrying its path, its `pathlib` suffix, whether it is a regular file,
  its `FileState`, and the result of reading it line by line
  (`none` embeds an exception raised while opening/reading).
* The walker's output is the `entries` list of an `FS`, in walker order;
  `rootExists` embeds `root.exists()`.
* `re.compile` plus the compiled object's `.search` are embedded as a
  parameter `re_compile : Str → Bool → Option Matcher`: `none` embeds a
  compile failure (`re.PatternError`), and a `Matcher` returns
  `(m.start(), m.group(0))` for the first match in a line, if any.

Python exceptions are embedded as `Except`.
-/

namespace PyNote

/-- A Python string, embedded as its list of characters. -/
abbrev Str := List Char

/-- The two exceptions `full_text_search` can raise itself:
`FileNotFoundError` (line 148) and `re.PatternError` (line 151). -/
inductive SearchError
  | notFoundError
  | patternError
deriving DecidableEq, Repr

/-- An I/O exception escaping `detect_encoding` (an `open`/`read` failure
other than `UnicodeDecodeError` during the UTF-8 attempt, which the
`except UnicodeDecodeError` clause does not catch). -/
inductive IOFail
  | ioError
deriving DecidableEq, Repr

/-- The observable outcomes of the file-system interactions of
`detect_encoding` for one file: whether the first `open`/`read` (UTF-8
attempt, line 111-112) raises an error that is not a `UnicodeDecodeError`;
whether the content decodes as valid UTF-8; and whether the second
`open`/`read` (latin-1 attempt, line 117-118) raises. -/
structure FileState where
  firstOpenFails : Bool
  utf8Valid : Bool
  secondOpenFails : Bool
deriving DecidableEq, Repr

/-- `detect_encoding` (utils.py lines 99-121).  The `try` block reads the
file as UTF-8 and returns `'utf-8'` on success; only `UnicodeDecodeError`
is caught, so any other failure of the first `open`/`read` propagates
(`.error`).  On a decode error the latin-1 attempt returns `'latin-1'`,
and its `except Exception` clause returns `'utf-8'` if that attempt
raises. -/
def detect_encoding (f : FileState) : Except IOFail String :=
  if f.firstOpenFails then .error .ioError
  else if f.utf8Valid then .ok "utf-8"
  else if f.secondOpenFails then .ok "utf-8"
  else .ok "latin-1"

/-- One path yielded by the walker iterator (`root.rglob('*')` or
`root.glob('*')`): its `str(p)`, its `p.suffix`, the result of
`p.is_file()`, its behaviour under `detect_encoding`, and the lines
obtained by `[ln.rstrip('\n') for ln in f]` — `none` embeds an exception
raised while opening or reading the file at line 165-166. -/
structure FileEntry where
  path : String
  suffix : String
  is_file : Bool
  access : FileState
  readLines : Option (List Str)
deriving DecidableEq, Repr

/-- The file system under the search root: whether `root.exists()`, and
the walker's yielded sequence in walker order. -/
structure FS where
  rootExists : Bool
  entries : List FileEntry
deriving DecidableEq, Repr

/-- One result dict (utils.py lines 190-197): keys `path`, `line_no`,
`line`, `match` (field `matched`, as `match` is reserved), `pre_context`,
`post_context`. -/
structure MatchRecord where
  path : String
  line_no : Nat
  line : Str
  matched : Str
  pre_context : List Str
  post_context : List Str
deriving DecidableEq, Repr

/-- `beginsWith needle hay` is true iff `needle` occurs at the start of
`hay` (used to embed Python's `str.find` scan). -/
def beginsWith : Str → Str → Bool
  | [], _ => true
  | _ :: _, [] => false
  | c :: cs, d :: ds => c == d && beginsWith cs ds

/-- Python `hay.find(needle)` (utils.py line 179): the lowest index at
which `needle` occurs in `hay`, or `none` for Python's `-1`.  The empty
needle is found at index 0, as in Python. -/
def strFind : Str → Str → Option Nat
  | [], needle => if beginsWith needle [] then some 0 else none
  | c :: t, needle =>
    if beginsWith needle (c :: t) then some 0
    else Option.map (fun k => k + 1) (strFind t needle)

/-- A compiled regex object's `.search` on one line: `none` when there is
no match, otherwise `(m.start(), m.group(0))`. -/
abbrev Matcher := Str → Option (Nat × Str)

/-- The substring branch of the line scan (utils.py lines 176-183):
lower-case line and pattern when `ignore_case`, `find` the needle, and on
a hit return the start index together with
`line[start : start + len(pattern)]` taken from the original line. -/
def substringMatch (pattern : Str) (ignore_case : Bool) (line : Str) :
    Option (Nat × Str) :=
  let hay := if ignore_case then line.map Char.toLower else line
  let needle := if ignore_case then pattern.map Char.toLower else pattern
  match strFind hay needle with
  | none => none
  | some idx => some (idx, (line.drop idx).take pattern.length)

/-- The result dict appended for a match on the line of 0-based index `j`
(1-based `i = j + 1`), with the context slices of utils.py lines 185-188:
`pre_start = max(0, i - 1 - context_lines)` is `j - w` in `Nat`
subtraction, `pre_context = lines[pre_start : i - 1]`,
`post_end = min(len(lines), i + context_lines)`,
`post_context = lines[i : post_end]`. -/
def mkRecord (path : String) (allLines : List Str) (w : Nat) (j : Nat)
    (line : Str) (matched : Str) : MatchRecord :=
  { path := path
    line_no := j + 1
    line := line
    matched := matched
    pre_context := (allLines.take j).drop (j - w)
    post_context := (allLines.take (min allLines.length (j + 1 + w))).drop (j + 1) }

/-- The loop `for i, line in enumerate(lines, start=1)` (utils.py lines
168-197) over the remaining lines `rest`, where `rest` starts at 0-based
index `j` of `allLines`: each line on which `lineMatch` reports a match
contributes its result dict, in file order. -/
def scanLinesAux (lineMatch : Matcher) (path : String) (allLines : List Str)
    (w : Nat) : List Str → Nat → List MatchRecord
  | [], _ => []
  | line :: rest, j =>
    match lineMatch line with
    | none => scanLinesAux lineMatch path allLines w rest (j + 1)
    | some (_start, matched) =>
      mkRecord path allLines w j line matched ::
        scanLinesAux lineMatch path allLines w rest (j + 1)

/-- The full per-file line loop, starting at the first line. -/
def scanLines (lineMatch : Matcher) (path : String) (allLines : List Str)
    (w : Nat) : List MatchRecord :=
  scanLinesAux lineMatch path allLines w allLines 0

/-- The per-file body of the walker loop inside `try`/`except` (utils.py
lines 162-200): `detect_encoding` raising, or the open/read at lines
165-166 raising, is caught by `except Exception: continue`, so the file
contributes no records; otherwise every line is scanned. -/
def fileRecords (lineMatch : Matcher) (w : Nat) (e : FileEntry) :
    List MatchRecord :=
  match detect_encoding e.access with
  | .error _ => []
  | .ok _enc =>
    match e.readLines with
    | none => []
    | some lines => scanLines lineMatch e.path lines w

/-- The extension filter (utils.py lines 159-161): when `file_extensions`
is `None` every file passes; otherwise a file passes iff its `p.suffix`
is a member (`in`, exact string comparison) of the filter. -/
def extAllows (file_extensions : Option (List String)) (suffix : String) :
    Bool :=
  match file_extensions with
  | none => true
  | some exts => exts.contains suffix

/-- The walker loop (utils.py lines 156-200): non-files are skipped
(line 157-158), then the extension filter is applied (lines 159-161),
then the file is scanned; results accumulate in walker order. -/
def walkRecords (lineMatch : Matcher) (file_extensions : Option (List String))
    (w : Nat) (entries : List FileEntry) : List MatchRecord :=
  entries.flatMap fun e =>
    if e.is_file then
      if extAllows file_extensions e.suffix then fileRecords lineMatch w e
      else []
    else []

/-- `full_text_search` (utils.py lines 124-202).  Order of effects as in
the source: the root-existence check raising `FileNotFoundError`
(lines 146-148) comes first; then, in regex mode, `re.compile` (line 151),
whose failure raises before any file is visited; then the walker loop.
`re_compile` embeds the `re` module (pattern and the
`re.IGNORECASE if ignore_case else 0` flag to a matcher, `none` for a
compile error); `recursive` only selects `rglob` versus `glob`, whose
common output is already `fs.entries`. -/
def full_text_search (fs : FS) (pattern : Str) (regex : Bool)
    (ignore_case : Bool) (file_extensions : Option (List String))
    (context_lines : Nat) (re_compile : Str → Bool → Option Matcher) :
    Except SearchError (List MatchRecord) :=
  if fs.rootExists = false then .error .notFoundError
  else if regex then
    match re_compile pattern ignore_case with
    | none => .error .patternError
    | some matcher =>
      .ok (walkRecords matcher file_extensions context_lines fs.entries)
  else
    .ok (walkRecords (substringMatch pattern ignore_case) file_extensions
      context_lines fs.entries)


theorem beginsWith_spec {n h : Str} (hb : beginsWith n h = true) :
    n.length ≤ h.length ∧ h.take n.length = n := by
  induction n generalizing h with
  | nil => simp
  | cons c cs ih =>
    cases h with
    | nil => simp [beginsWith] at hb
    | cons d ds =>
      simp only [beginsWith, Bool.and_eq_true, beq_iff_eq] at hb
      obtain ⟨rfl, hb⟩ := hb
      obtain ⟨h1, h2⟩ := ih hb
      refine ⟨by simpa using h1, ?_⟩
      simp [List.take, h2]

theorem strFind_nil_needle (h : Str) : strFind h [] = some 0 := by
  cases h <;> simp [strFind, beginsWith]

theorem strFind_spec {h n : Str} {i : Nat} (hf : strFind h n = some i) :
    beginsWith n (h.drop i) = true ∧ ∀ k, k < i → beginsWith n (h.drop k) = false := by
  induction h generalizing i with
  | nil =>
    rw [strFind] at hf
    by_cases hb : beginsWith n [] = true
    · rw [if_pos hb] at hf
      obtain rfl : 0 = i := Option.some.inj hf
      exact ⟨hb, fun k hk => absurd hk (by omega)⟩
    · rw [if_neg hb] at hf
      exact absurd hf (by simp)
  | cons c t ih =>
    rw [strFind] at hf
    by_cases hb : beginsWith n (c :: t) = true
    · rw [if_pos hb] at hf
      obtain rfl : 0 = i := Option.some.inj hf
      exact ⟨hb, fun k hk => absurd hk (by omega)⟩
    · rw [if_neg hb] at hf
      obtain ⟨i', hfi, hi⟩ := Option.map_eq_some'.mp hf
      subst hi
      obtain ⟨h1, h2⟩ := ih hfi
      refine ⟨by simpa using h1, ?_⟩
      intro k hk
      cases k with
      | zero => simpa using Bool.of_not_eq_true hb
      | succ k' => simpa using h2 k' (by omega)



theorem substringMatch_some {pat line : Str} {ic : Bool} {idx : Nat} {m : Str}
    (h : substringMatch pat ic line = some (idx, m)) :
    strFind (if ic then line.map Char.toLower else line)
        (if ic then pat.map Char.toLower else pat) = some idx ∧
      m = (line.drop idx).take pat.length := by
  simp only [substringMatch] at h
  cases hf : strFind (if ic then line.map Char.toLower else line)
      (if ic then pat.map Char.toLower else pat) with
  | none => rw [hf] at h; exact absurd h (by simp)
  | some i =>
    rw [hf] at h
    simp only [Option.some.injEq, Prod.mk.injEq] at h
    obtain ⟨rfl, rfl⟩ := h
    exact ⟨rfl, rfl⟩

theorem substringMatch_nil_pattern (ic : Bool) (line : Str) :
    substringMatch [] ic line = some (0, []) := by
  cases ic <;> simp [substringMatch, strFind_nil_needle]

theorem scanLinesAux_lb {lm : Matcher} {p : String} {L : List Str} {w : Nat}
    {rest : List Str} {j : Nat} {r : MatchRecord}
    (hr : r ∈ scanLinesAux lm p L w rest j) : j + 1 ≤ r.line_no := by
  induction rest generalizing j with
  | nil => simp [scanLinesAux] at hr
  | cons line rest' ih =>
    simp only [scanLinesAux] at hr
    cases hlm : lm line with
    | none =>
      rw [hlm] at hr
      have := ih hr
      omega
    | some pr =>
      rcases pr with ⟨s, m⟩
      rw [hlm] at hr
      rcases List.mem_cons.mp hr with h1 | h2
      · subst h1; simp [mkRecord]
      · have := ih h2; omega

theorem scanLinesAux_mem {lm : Matcher} {p : String} {L : List Str} {w : Nat}
    {rest : List Str} {j : Nat} {r : MatchRecord}
    (hr : r ∈ scanLinesAux lm p L w rest j) (hrest : rest = L.drop j) :
    ∃ k line s matched, j ≤ k ∧ k < L.length ∧ lm line = some (s, matched) ∧
      r = mkRecord p L w k line matched := by
  induction rest generalizing j with
  | nil => simp [scanLinesAux] at hr
  | cons line rest' ih =>
    have hjL : j < L.length := by
      by_contra hc
      push_neg at hc
      rw [List.drop_eq_nil_of_le hc] at hrest
      exact absurd hrest (by simp)
    have hrest' : rest' = L.drop (j + 1) := by
      have hdd : (L.drop j).drop 1 = L.drop (j + 1) := List.drop_drop 1 j L
      rw [← hdd, ← hrest]
      simp
    simp only [scanLinesAux] at hr
    cases hlm : lm line with
    | none =>
      rw [hlm] at hr
      obtain ⟨k, l', s', m', hk1, hk2, hl', hr'⟩ := ih hr hrest'
      exact ⟨k, l', s', m', by omega, hk2, hl', hr'⟩
    | some pr =>
      rcases pr with ⟨s, m⟩
      rw [hlm] at hr
      rcases List.mem_cons.mp hr with h1 | h2
      · exact ⟨j, line, s, m, le_refl j, hjL, hlm, h1⟩
      · obtain ⟨k, l', s', m', hk1, hk2, hl', hr'⟩ := ih h2 hrest'
        exact ⟨k, l', s', m', by omega, hk2, hl', hr'⟩

theorem scanLinesAux_pairwise (lm : Matcher) (p : String) (L : List Str)
    (w : Nat) (rest : List Str) (j : Nat) :
    List.Pairwise (fun a b => a.line_no < b.line_no)
      (scanLinesAux lm p L w rest j) := by
  induction rest generalizing j with
  | nil => simp [scanLinesAux]
  | cons line rest' ih =>
    simp only [scanLinesAux]
    cases hlm : lm line with
    | none => exact ih (j + 1)
    | some pr =>
      rcases pr with ⟨s, m⟩
      refine List.Pairwise.cons ?_ (ih (j + 1))
      intro b hb
      have := scanLinesAux_lb hb
      simp only [mkRecord]
      omega

theorem fileRecords_of_firstOpenFails {lm : Matcher} {w : Nat} {e : FileEntry}
    (h : e.access.firstOpenFails = true) : fileRecords lm w e = [] := by
  simp [fileRecords, detect_encoding, h]

theorem fileRecords_of_readLines_none {lm : Matcher} {w : Nat} {e : FileEntry}
    (h : e.readLines = none) : fileRecords lm w e = [] := by
  cases hd : detect_encoding e.access <;> simp [fileRecords, hd, h]

theorem fileRecords_readable {lm : Matcher} {w : Nat} {e : FileEntry}
    {ls : List Str} (h1 : e.access.firstOpenFails = false)
    (h2 : e.readLines = some ls) :
    fileRecords lm w e = scanLines lm e.path ls w := by
  cases huv : e.access.utf8Valid <;> cases hso : e.access.secondOpenFails <;>
    simp [fileRecords, detect_encoding, h1, huv, hso, h2]

theorem walkRecords_eq_filter (lm : Matcher)
    (file_extensions : Option (List String)) (w : Nat)
    (entries : List FileEntry) :
    walkRecords lm file_extensions w entries =
      (entries.filter fun e =>
          e.is_file && extAllows file_extensions e.suffix).flatMap
        (fileRecords lm w) := by
  induction entries with
  | nil => rfl
  | cons e es ih =>
    simp only [walkRecords, List.flatMap_cons, List.filter_cons] at ih ⊢
    cases hf : e.is_file <;> cases ha : extAllows file_extensions e.suffix <;>
      simp [hf, ha, ih]



/-- A concrete regular, readable file whose single line matches the
pattern `foo`. -/
def sampleFile : FileEntry :=
  { path := "a.txt", suffix := ".txt", is_file := true,
    access := ⟨false, true, false⟩, readLines := some [['f', 'o', 'o']] }

/-- A concrete file whose first `open` raises a non-decode error and whose
read raises: the per-file `except` clause skips it. -/
def brokenFile : FileEntry :=
  { path := "bad.txt", suffix := ".txt", is_file := true,
    access := ⟨true, false, false⟩, readLines := none }

/-- The match record `full_text_search` produces for `sampleFile` when
searching for `foo` with one line of context. -/
def sampleRecord : MatchRecord :=
  { path := "a.txt", line_no := 1, line := ['f', 'o', 'o'],
    matched := ['f', 'o', 'o'], pre_context := [], post_context := [] }

/-- An embedded `re` module on which every compilation fails. -/
def rcFail : Str → Bool → Option Matcher := fun _ _ => none

/-- C1 (amended): with a non-None extensions filter a regular file is
scanned iff its suffix is a member (case-sensitive string membership) of
the filter — so a present-but-empty filter scans no files — and with an
absent (`None`) filter every regular file is scanned. -/
theorem claim_C1_extension_filter (fs : FS) (pat : Str) (ic : Bool)
    (fe : Option (List String)) (exts : List String) (w : Nat)
    (rc : Str → Bool → Option Matcher) (h : fs.rootExists = true) :
    full_text_search fs pat false ic fe w rc =
        .ok ((fs.entries.filter fun e =>
            e.is_file && extAllows fe e.suffix).flatMap
          (fileRecords (substringMatch pat ic) w)) ∧
      (∀ s, extAllows (some exts) s = true ↔ s ∈ exts) ∧
      (∀ s, extAllows none s = true) := by
  refine ⟨?_, ?_, fun s => rfl⟩
  · simp [full_text_search, h, walkRecords_eq_filter]
  · intro s
    simp [extAllows, List.contains, List.elem_iff]

/-- Witness for C1 (amended) at a one-file root with an empty filter. -/
theorem claim_C1_extension_filter_witness :
    full_text_search ⟨true, [sampleFile]⟩ ['f', 'o', 'o'] false true
          (some []) 1 rcFail =
        .ok (((FS.mk true [sampleFile]).entries.filter fun e =>
            e.is_file && extAllows (some []) e.suffix).flatMap
          (fileRecords (substringMatch ['f', 'o', 'o'] true) 1)) ∧
      (∀ s, extAllows (some []) s = true ↔ s ∈ ([] : List String)) ∧
      (∀ s, extAllows none s = true) :=
  claim_C1_extension_filter ⟨true, [sampleFile]⟩ ['f', 'o', 'o'] true
    (some []) [] 1 rcFail rfl

/-- Counterexample to C1 as stated: under a present-but-empty extension
filter the regular, readable, matching `sampleFile` is not scanned — the
search returns no records at all — although with the filter absent the
very same search returns its match record. -/
theorem claim_C1_counterexample :
    full_text_search ⟨true, [sampleFile]⟩ ['f', 'o', 'o'] false true
          (some []) 1 rcFail = .ok [] ∧
      full_text_search ⟨true, [sampleFile]⟩ ['f', 'o', 'o'] false true
          none 1 rcFail = .ok [sampleRecord] ∧
      sampleRecord ∉ ([] : List MatchRecord) :=
  ⟨rfl, rfl, by decide⟩

/-- C4: in regex mode with an existing root and a pattern the `re` module
fails to compile, the search raises `PatternError`; the outcome is the
same error for every file list under the root, so no file is read and no
partial results are produced. -/
theorem claim_C4_invalid_regex (fs : FS) (pat : Str) (ic : Bool)
    (fe : Option (List String)) (w : Nat)
    (rc : Str → Bool → Option Matcher) (h : fs.rootExists = true)
    (hc : rc pat ic = none) :
    full_text_search fs pat true ic fe w rc = .error .patternError ∧
      ∀ entries : List FileEntry,
        full_text_search ⟨true, entries⟩ pat true ic fe w rc =
          .error .patternError := by
  constructor
  · simp [full_text_search, h, hc]
  · intro entries
    simp [full_text_search, hc]

/-- Witness for C4 at a root holding a readable matching file. -/
theorem claim_C4_invalid_regex_witness :
    full_text_search ⟨true, [sampleFile]⟩ ['('] true true none 1 rcFail =
        .error .patternError ∧
      ∀ entries : List FileEntry,
        full_text_search ⟨true, entries⟩ ['('] true true none 1 rcFail =
          .error .patternError :=
  claim_C4_invalid_regex ⟨true, [sampleFile]⟩ ['('] true none 1 rcFail
    rfl rfl

/-- Counterexample to C5 as stated: when the first `open`/`read` (the
UTF-8 attempt) fails with an error that is not a `UnicodeDecodeError`,
`detect_encoding` propagates it instead of returning `'utf-8'` — the
`except UnicodeDecodeError` clause does not catch it, so `detect` can
raise. -/
theorem claim_C5_counterexample :
    detect_encoding ⟨true, true, false⟩ = .error .ioError := rfl

/-- C5 (amended): `detect_encoding` returns `'utf-8'` when the content
decodes as UTF-8, `'latin-1'` when UTF-8 decoding fails and the latin-1
attempt succeeds, `'utf-8'` when the latin-1 attempt itself fails; but an
error other than a decode error at the first (UTF-8) attempt propagates,
so `detect_encoding` can raise. -/
theorem claim_C5_detect_encoding (f : FileState) :
    (f.firstOpenFails = false → f.utf8Valid = true →
        detect_encoding f = .ok "utf-8") ∧
      (f.firstOpenFails = false → f.utf8Valid = false →
          f.secondOpenFails = false → detect_encoding f = .ok "latin-1") ∧
      (f.firstOpenFails = false → f.utf8Valid = false →
          f.secondOpenFails = true → detect_encoding f = .ok "utf-8") ∧
      (f.firstOpenFails = true → detect_encoding f = .error .ioError) := by
  rcases f with ⟨f1, uv, so⟩
  cases f1 <;> cases uv <;> cases so <;> simp [detect_encoding]

/-- Witness for C5 (amended): the latin-1 fallback on a file that is not
valid UTF-8 and whose latin-1 read succeeds. -/
theorem claim_C5_detect_encoding_witness :
    detect_encoding ⟨false, false, false⟩ = .ok "latin-1" :=
  (claim_C5_detect_encoding ⟨false, false, false⟩).2.1 rfl rfl rfl

/-- C7: when the search root does not exist, `full_text_search` raises
`FileNotFoundError` at once — before regex compilation (the outcome is
the same even when compilation would fail) and before any file is
enumerated or read (the outcome is the same for every file list), with no
partial results. -/
theorem claim_C7_root_not_found (entries : List FileEntry) (pat : Str)
    (regex ic : Bool) (fe : Option (List String)) (w : Nat)
    (rc : Str → Bool → Option Matcher) :
    full_text_search ⟨false, entries⟩ pat regex ic fe w rc =
      .error .notFoundError := rfl



/-- C2: every record produced by the per-file line scan carries exactly
the context slices of utils.py lines 185-188 — `pre_context` is the slice
`[max(0, j - w), j)` (`j - w` clamps at 0 in `Nat`) and `post_context`
the slice `[j + 1, min(n, j + w + 1))` of the file's lines, of lengths
`min w j` and `min w (n - j - 1)`, clamped and never padded. -/
theorem claim_C2_context_window {lm : Matcher} {path : String}
    {L : List Str} {w : Nat} {r : MatchRecord}
    (hr : r ∈ scanLines lm path L w) :
    ∃ j, j < L.length ∧ r.line_no = j + 1 ∧
      r.pre_context = (L.take j).drop (j - w) ∧
      r.post_context = (L.take (min L.length (j + w + 1))).drop (j + 1) ∧
      r.pre_context.length = min w j ∧
      r.post_context.length = min w (L.length - j - 1) := by
  obtain ⟨k, l', s', m', _hk1, hk2, _hl', rfl⟩ := scanLinesAux_mem hr rfl
  refine ⟨k, hk2, rfl, rfl, ?_, ?_, ?_⟩
  · simp only [mkRecord]
    rw [show k + 1 + w = k + w + 1 by omega]
  · simp only [mkRecord, List.length_drop, List.length_take]
    omega
  · simp only [mkRecord, List.length_drop, List.length_take]
    omega

/-- Three concrete one-character lines for the context-window witness. -/
def threeLines : List Str := [['f'], ['o'], ['x']]

/-- The record the scan produces for the middle line of `threeLines`. -/
def recMid : MatchRecord :=
  { path := "t.txt", line_no := 2, line := ['o'], matched := ['o'],
    pre_context := [['f']], post_context := [['x']] }

/-- Witness for C2 at a match on the middle of three lines. -/
theorem claim_C2_context_window_witness :
    ∃ j, j < threeLines.length ∧ recMid.line_no = j + 1 ∧
      recMid.pre_context = (threeLines.take j).drop (j - 1) ∧
      recMid.post_context =
        (threeLines.take (min threeLines.length (j + 1 + 1))).drop (j + 1) ∧
      recMid.pre_context.length = min 1 j ∧
      recMid.post_context.length = min 1 (threeLines.length - j - 1) :=
  @claim_C2_context_window (substringMatch ['o'] true) "t.txt" threeLines 1
    recMid (by decide)

/-- C3: with an existing root and substring mode the search raises no
exception — it returns the walker fold over all entries — while a file
whose first `open` raises, or whose read raises, contributes no records
(skipped silently, with no diagnostic in the result), and a readable file
contributes the records of a full scan of its lines. -/
theorem claim_C3_skip_unreadable (fs : FS) (pat : Str) (ic : Bool)
    (fe : Option (List String)) (w : Nat)
    (rc : Str → Bool → Option Matcher) (h : fs.rootExists = true) :
    full_text_search fs pat false ic fe w rc =
        .ok (walkRecords (substringMatch pat ic) fe w fs.entries) ∧
      (∀ (lm : Matcher) (e : FileEntry),
          e.access.firstOpenFails = true ∨ e.readLines = none →
            fileRecords lm w e = []) ∧
      (∀ (lm : Matcher) (e : FileEntry) (ls : List Str),
          e.access.firstOpenFails = false → e.readLines = some ls →
            fileRecords lm w e = scanLines lm e.path ls w) := by
  refine ⟨by simp [full_text_search, h], ?_, ?_⟩
  · rintro lm e (h1 | h1)
    · exact fileRecords_of_firstOpenFails h1
    · exact fileRecords_of_readLines_none h1
  · intro lm e ls h1 h2
    exact fileRecords_readable h1 h2

/-- Witness for C3 at a root holding a broken file and a readable file. -/
theorem claim_C3_skip_unreadable_witness :
    full_text_search ⟨true, [brokenFile, sampleFile]⟩ ['f', 'o', 'o'] false
          true none 1 rcFail =
        .ok (walkRecords (substringMatch ['f', 'o', 'o'] true) none 1
          (FS.mk true [brokenFile, sampleFile]).entries) ∧
      (∀ (lm : Matcher) (e : FileEntry),
          e.access.firstOpenFails = true ∨ e.readLines = none →
            fileRecords lm 1 e = []) ∧
      (∀ (lm : Matcher) (e : FileEntry) (ls : List Str),
          e.access.firstOpenFails = false → e.readLines = some ls →
            fileRecords lm 1 e = scanLines lm e.path ls 1) :=
  claim_C3_skip_unreadable ⟨true, [brokenFile, sampleFile]⟩ ['f', 'o', 'o']
    true none 1 rcFail rfl

/-- C6: a case-insensitive substring hit returns the matched text sliced
from the original, un-lowered line at the found offset with the pattern's
original length; that slice case-folds to the pattern, and the offset is
the first occurrence of the lowered pattern in the lowered line. -/
theorem claim_C6_case_insensitive_substring {line pat : Str} {idx : Nat}
    {m : Str} (_hpat : pat ≠ [])
    (h : substringMatch pat true line = some (idx, m)) :
    m = (line.drop idx).take pat.length ∧
      m.map Char.toLower = pat.map Char.toLower ∧
      beginsWith (pat.map Char.toLower)
          ((line.map Char.toLower).drop idx) = true ∧
      ∀ k, k < idx →
        beginsWith (pat.map Char.toLower)
          ((line.map Char.toLower).drop k) = false := by
  obtain ⟨hf, rfl⟩ := substringMatch_some h
  simp only [if_true] at hf
  obtain ⟨h1, h2⟩ := strFind_spec hf
  have hbs := beginsWith_spec h1
  refine ⟨rfl, ?_, h1, h2⟩
  calc ((line.drop idx).take pat.length).map Char.toLower
      = ((line.map Char.toLower).drop idx).take pat.length := by
        rw [List.map_take, List.map_drop]
    _ = pat.map Char.toLower := by
        simpa using hbs.2

/-- Witness for C6: pattern `fO` against line `Foo`. -/
theorem claim_C6_case_insensitive_substring_witness :
    (['F', 'o'] : Str) =
        ((['F', 'o', 'o'] : Str).drop 0).take (['f', 'O'] : Str).length ∧
      (['F', 'o'] : Str).map Char.toLower =
        (['f', 'O'] : Str).map Char.toLower ∧
      beginsWith ((['f', 'O'] : Str).map Char.toLower)
          (((['F', 'o', 'o'] : Str).map Char.toLower).drop 0) = true ∧
      ∀ k, k < 0 →
        beginsWith ((['f', 'O'] : Str).map Char.toLower)
          (((['F', 'o', 'o'] : Str).map Char.toLower).drop k) = false :=
  @claim_C6_case_insensitive_substring ['F', 'o', 'o'] ['f', 'O'] 0
    ['F', 'o'] (by decide) (by decide)

/-- C8: with an existing root the result is the concatenation, in walker
order, of each admitted file's record block (no cross-file sorting), and
within any file's block the line numbers are strictly ascending. -/
theorem claim_C8_result_order (fs : FS) (pat : Str) (ic : Bool)
    (fe : Option (List String)) (w : Nat)
    (rc : Str → Bool → Option Matcher) (h : fs.rootExists = true) :
    full_text_search fs pat false ic fe w rc =
        .ok (fs.entries.flatMap fun e =>
          if e.is_file then
            if extAllows fe e.suffix then
              fileRecords (substringMatch pat ic) w e
            else []
          else []) ∧
      ∀ (lm : Matcher) (v : Nat) (e : FileEntry),
        List.Pairwise (fun a b => a.line_no < b.line_no)
          (fileRecords lm v e) := by
  constructor
  · simp [full_text_search, h, walkRecords]
  · intro lm v e
    cases hd : detect_encoding e.access with
    | error err => simp [fileRecords, hd]
    | ok s =>
      cases hrl : e.readLines with
      | none => simp [fileRecords, hd, hrl]
      | some ls =>
        simpa [fileRecords, hd, hrl, scanLines] using
          scanLinesAux_pairwise lm e.path ls v ls 0

/-- Witness for C8 at a two-file root. -/
theorem claim_C8_result_order_witness :
    full_text_search ⟨true, [brokenFile, sampleFile]⟩ ['f', 'o', 'o'] false
          true none 1 rcFail =
        .ok ((FS.mk true [brokenFile, sampleFile]).entries.flatMap fun e =>
          if e.is_file then
            if extAllows none e.suffix then
              fileRecords (substringMatch ['f', 'o', 'o'] true) 1 e
            else []
          else []) ∧
      ∀ (lm : Matcher) (v : Nat) (e : FileEntry),
        List.Pairwise (fun a b => a.line_no < b.line_no)
          (fileRecords lm v e) :=
  claim_C8_result_order ⟨true, [brokenFile, sampleFile]⟩ ['f', 'o', 'o']
    true none 1 rcFail rfl

/-- C9: the empty pattern is not rejected in substring mode: on a
non-empty line the matcher reports a hit at offset 0 with empty matched
text. -/
theorem claim_C9_empty_pattern_nonempty_line (ic : Bool) (line : Str)
    (_h : line ≠ []) : substringMatch [] ic line = some (0, []) :=
  substringMatch_nil_pattern ic line

/-- Witness for C9 on the one-character line `a`. -/
theorem claim_C9_empty_pattern_nonempty_line_witness :
    substringMatch [] true ['a'] = some (0, []) :=
  claim_C9_empty_pattern_nonempty_line true ['a'] (by decide)

theorem scanLinesAux_nil_pattern (ic : Bool) (p : String) (L : List Str)
    (w : Nat) (rest : List Str) (j : Nat) :
    (scanLinesAux (substringMatch [] ic) p L w rest j).map
          MatchRecord.line_no =
        (List.range rest.length).map (fun k => j + k + 1) ∧
      (scanLinesAux (substringMatch [] ic) p L w rest j).map
          MatchRecord.matched =
        List.replicate rest.length [] := by
  induction rest generalizing j with
  | nil => simp [scanLinesAux]
  | cons line rest' ih =>
    obtain ⟨ih1, ih2⟩ := ih (j + 1)
    simp only [scanLinesAux, substringMatch_nil_pattern, List.map_cons,
      List.length_cons, List.replicate_succ]
    constructor
    · rw [ih1, List.range_succ_eq_map, List.map_cons, List.map_map]
      have hfun : (fun k => j + 1 + k + 1) =
          ((fun k => j + k + 1) ∘ Nat.succ) := by
        funext k
        simp only [Function.comp]
        omega
      rw [hfun]
      simp [mkRecord]
    · rw [ih2]
      simp [mkRecord]

/-- C10: with the empty pattern in substring mode, every line of a
scanned file — empty lines included — yields a record, in order, with
line numbers 1..n and empty matched text; the matcher reports offset 0 on
every line. -/
theorem claim_C10_empty_pattern_every_line (ic : Bool) (p : String)
    (L : List Str) (w : Nat) :
    (∀ line : Str, substringMatch [] ic line = some (0, [])) ∧
      (scanLines (substringMatch [] ic) p L w).map MatchRecord.line_no =
        (List.range L.length).map (fun k => k + 1) ∧
      (scanLines (substringMatch [] ic) p L w).map MatchRecord.matched =
        List.replicate L.length [] := by
  obtain ⟨h1, h2⟩ := scanLinesAux_nil_pattern ic p L w L 0
  refine ⟨fun line => substringMatch_nil_pattern ic line, ?_, h2⟩
  calc (scanLines (substringMatch [] ic) p L w).map MatchRecord.line_no
      = (List.range L.length).map (fun k => 0 + k + 1) := h1
    _ = (List.range L.length).map (fun k => k + 1) := by simp


end PyNote
